import Mathlib

/-
Verification of the persistent high-score ledger embedded in the
NumberFormatGame sketch.

The non-volatile storage is modelled as a total map from byte addresses to
stored values; a write truncates the stored value modulo 256, matching the
unsigned 8-bit storage cells of the hardware.  The function showHighScores
below is a direct shallow embedding of the function of the same name in
NumberFormatGame.ino: it first compares the session score against storage
byte 5 and records whether the new-high-score notification is shown, then
runs the descending scan over slots 4 down to 0 (showLoop), and finally
reads slots 0 to 4 for display.  The scan body keeps both writes of the
source, including the store of i+1 into slot i that is immediately
overwritten by the store of the score into the same slot.  The reset branch
of debugMode and the pure display step are embedded as resetScores and
renderLeaderboard.
-/

structure EEPROM where
  data : Nat → Nat

def EEPROM.read (e : EEPROM) (a : Nat) : Nat := e.data a

def EEPROM.write (e : EEPROM) (a v : Nat) : EEPROM :=
  ⟨fun x => if x = a then v % 256 else e.data x⟩

/-
The loop of showHighScores, scanning from slot i down to slot 0:
for each slot, if the score beats the stored value the slot is written
(first with i+1 when i is less than 4, then with the score), otherwise the
loop breaks.
-/
def showLoop (score : Nat) : Nat → EEPROM → EEPROM
  | 0, e =>
      if score > e.read 0 then (e.write 0 1).write 0 score else e
  | j + 1, e =>
      if score > e.read (j + 1) then
        showLoop score j
          ((if j + 1 < 4 then e.write (j + 1) (j + 2) else e).write (j + 1) score)
      else e

structure HSResult where
  newHigh : Bool
  state : EEPROM
  shown : List Nat

/- Embedding of showHighScores from NumberFormatGame.ino. -/
def showHighScores (score : Nat) (e : EEPROM) : HSResult :=
  let nh := decide (score > e.read 5)
  let e2 := showLoop score 4 e
  { newHigh := nh, state := e2, shown := (List.range 5).map fun i => e2.read i }

/- The final display step of showHighScores: reads slots 0 to 4, no writes. -/
def renderLeaderboard (e : EEPROM) : List Nat × EEPROM :=
  ((List.range 5).map fun i => e.read i, e)

/- Repeated display calls, threading the storage state through each call. -/
def renderIter (e : EEPROM) : Nat → List (List Nat) × EEPROM
  | 0 => ([], e)
  | n + 1 =>
      ((renderLeaderboard e).1 :: (renderIter (renderLeaderboard e).2 n).1,
        (renderIter (renderLeaderboard e).2 n).2)

/- The default scores held in the global highscore array of the sketch. -/
def highscore : List Nat := [10, 7, 5, 4, 2]

/- The reset branch of debugMode: writes highscore into slots 0 to 4. -/
def resetScores (e : EEPROM) : EEPROM :=
  (List.range 5).foldl (fun acc i => acc.write i (highscore.getD i 0)) e

/- The five leaderboard slots in rank order. -/
def boardOf (e : EEPROM) : List Nat :=
  (List.range 5).map fun i => e.read i

/- The ordering invariant of the spec: slots are non-ascending in rank. -/
def SortedBoard (e : EEPROM) : Prop :=
  e.read 1 ≤ e.read 0 ∧ e.read 2 ≤ e.read 1 ∧
    e.read 3 ≤ e.read 2 ∧ e.read 4 ≤ e.read 3

instance (e : EEPROM) : Decidable (SortedBoard e) :=
  inferInstanceAs (Decidable (_ ∧ _ ∧ _ ∧ _))

/- A sequence of game sessions, each ending in one showHighScores call. -/
def recordSeq (l : List Nat) (e : EEPROM) : EEPROM :=
  l.foldl (fun acc s => (showHighScores s acc).state) e

/- A concrete storage state: leaderboard 10 7 5 4 2, byte 5 holding 10. -/
def e1 : EEPROM := ⟨fun a => [10, 7, 5, 4, 2, 10].getD a 0⟩

/- A concrete storage state: leaderboard 10 7 5 4 2, byte 5 holding 20. -/
def e5 : EEPROM := ⟨fun a => [10, 7, 5, 4, 2, 20].getD a 0⟩

theorem EEPROM.read_write_self (e : EEPROM) (a v : Nat) :
    (e.write a v).read a = v % 256 := by
  simp [EEPROM.read, EEPROM.write]

theorem EEPROM.read_write_ne (e : EEPROM) (a v x : Nat) (h : x ≠ a) :
    (e.write a v).read x = e.read x := by
  simp [EEPROM.read, EEPROM.write, h]

theorem boardOf_eq (e : EEPROM) :
    boardOf e = [e.read 0, e.read 1, e.read 2, e.read 3, e.read 4] := rfl

theorem showHighScores_state (score : Nat) (e : EEPROM) :
    (showHighScores score e).state = showLoop score 4 e := rfl

theorem resetScores_eq (e : EEPROM) :
    resetScores e =
      ((((e.write 0 10).write 1 7).write 2 5).write 3 4).write 4 2 := rfl

/- Reading the state produced by one loop iteration at an untouched slot. -/
theorem stepState_read_ne (score m k : Nat) (e : EEPROM) (hk : k ≠ m + 1) :
    ((if m + 1 < 4 then e.write (m + 1) (m + 2) else e).write (m + 1) score).read k
      = e.read k := by
  rw [EEPROM.read_write_ne _ _ _ _ hk]
  split
  · rw [EEPROM.read_write_ne _ _ _ _ hk]
  · rfl

theorem stepState_read_self (score m : Nat) (e : EEPROM) :
    ((if m + 1 < 4 then e.write (m + 1) (m + 2) else e).write (m + 1) score).read (m + 1)
      = score % 256 :=
  EEPROM.read_write_self _ _ _

/- The scan never touches an address above its starting slot. -/
theorem showLoop_read_gt (score a : Nat) :
    ∀ (i : Nat) (e : EEPROM), i < a → (showLoop score i e).read a = e.read a := by
  intro i
  induction i with
  | zero =>
      intro e h
      simp only [showLoop]
      split
      · rw [EEPROM.read_write_ne _ _ _ _ (by omega), EEPROM.read_write_ne _ _ _ _ (by omega)]
      · rfl
  | succ m ih =>
      intro e h
      simp only [showLoop]
      split
      · rw [ih _ (by omega), stepState_read_ne score m a e (by omega)]
      · rfl

/-
If some slot j between a and the starting slot i holds a value the score
does not beat, the scan breaks at or before j and slot a is unchanged.
-/
theorem showLoop_read_blocked (score a : Nat) :
    ∀ (i : Nat) (e : EEPROM) (j : Nat), a ≤ j → j ≤ i → score ≤ e.read j →
      (showLoop score i e).read a = e.read a := by
  intro i
  induction i with
  | zero =>
      intro e j haj hji hs
      have ha : a = 0 := by omega
      have hj : j = 0 := by omega
      subst ha; subst hj
      simp only [showLoop]
      rw [if_neg (by omega)]
  | succ m ih =>
      intro e j haj hji hs
      simp only [showLoop]
      split
      · rename_i hcond
        have hjm : j ≤ m := by
          rcases Nat.lt_or_ge j (m + 1) with h | h
          · omega
          · exfalso
            have hj : j = m + 1 := by omega
            subst hj
            omega
        have ha : a ≠ m + 1 := by omega
        rw [ih _ j haj hjm (by rw [stepState_read_ne score m j e (by omega)]; exact hs),
          stepState_read_ne score m a e ha]
      · rfl

/-
If the score beats every slot from a up to the starting slot i, slot a
ends up holding the score truncated to a byte.
-/
theorem showLoop_read_over (score a : Nat) :
    ∀ (i : Nat) (e : EEPROM), a ≤ i → (∀ k, a ≤ k → k ≤ i → e.read k < score) →
      (showLoop score i e).read a = score % 256 := by
  intro i
  induction i with
  | zero =>
      intro e hai hall
      have ha : a = 0 := by omega
      subst ha
      simp only [showLoop]
      rw [if_pos (hall 0 le_rfl le_rfl), EEPROM.read_write_self]
  | succ m ih =>
      intro e hai hall
      simp only [showLoop]
      rw [if_pos (hall (m + 1) (by omega) le_rfl)]
      rcases Nat.lt_or_ge a (m + 1) with hlt | hge
      · rw [ih _ (by omega)]
        intro k hk1 hk2
        rw [stepState_read_ne score m k e (by omega)]
        exact hall k hk1 (by omega)
      · have ha : a = m + 1 := by omega
        subst ha
        rw [showLoop_read_gt score (m + 1) m _ (by omega), stepState_read_self]

/- On a sorted board every slot at or below rank a is at most slot a. -/
theorem sortedBoard_mono (e : EEPROM) (h : SortedBoard e) :
    ∀ a k, a ≤ k → k ≤ 4 → e.read k ≤ e.read a := by
  obtain ⟨h1, h2, h3, h4⟩ := h
  intro a k hak hk4
  have ha4 : a ≤ 4 := by omega
  interval_cases a <;> interval_cases k <;> omega

/- On a sorted board, the full scan replaces each slot the score beats. -/
theorem showLoop4_slot (score : Nat) (e : EEPROM) (a : Nat) (ha : a ≤ 4)
    (hmono : ∀ k, a ≤ k → k ≤ 4 → e.read k ≤ e.read a) :
    (showLoop score 4 e).read a =
      if e.read a < score then score % 256 else e.read a := by
  by_cases h : e.read a < score
  · rw [if_pos h]
    exact showLoop_read_over score a 4 e ha
      (fun k hk1 hk2 => lt_of_le_of_lt (hmono k hk1 hk2) h)
  · rw [if_neg h]
    exact showLoop_read_blocked score a 4 e a le_rfl ha (le_of_not_lt h)

/- The full scan keeps any adjacent pair of a sorted board in order. -/
theorem showLoop4_pair (score : Nat) (e : EEPROM) (a : Nat) (ha : a + 1 ≤ 4)
    (hpair : e.read (a + 1) ≤ e.read a) :
    (showLoop score 4 e).read (a + 1) ≤ (showLoop score 4 e).read a := by
  by_cases hP : ∃ k, a + 1 ≤ k ∧ k ≤ 4 ∧ score ≤ e.read k
  · obtain ⟨k, hk1, hk2, hk3⟩ := hP
    rw [showLoop_read_blocked score (a + 1) 4 e k hk1 hk2 hk3,
      showLoop_read_blocked score a 4 e k (by omega) hk2 hk3]
    exact hpair
  · push_neg at hP
    rw [showLoop_read_over score (a + 1) 4 e ha hP]
    by_cases hA : score ≤ e.read a
    · rw [showLoop_read_blocked score a 4 e a le_rfl (by omega) hA]
      exact le_trans (Nat.mod_le score 256) hA
    · rw [showLoop_read_over score a 4 e (by omega)]
      intro k hk1 hk2
      rcases Nat.eq_or_lt_of_le hk1 with h | h
      · rw [← h]
        exact lt_of_not_ge hA
      · exact hP k (by omega) hk2

/- One showHighScores call preserves the ordering invariant. -/
theorem sorted_step (score : Nat) (e : EEPROM) (h : SortedBoard e) :
    SortedBoard (showLoop score 4 e) := by
  obtain ⟨h1, h2, h3, h4⟩ := h
  exact ⟨showLoop4_pair score e 0 (by omega) h1,
    showLoop4_pair score e 1 (by omega) h2,
    showLoop4_pair score e 2 (by omega) h3,
    showLoop4_pair score e 3 (by omega) h4⟩

/-- C1: evidence against the displacement claim.  On the leaderboard
10 7 5 4 2, a session score of 6 leaves the code with board 10 7 6 6 6,
not the claimed 10 7 6 5 4: the store of i+1 into slot i is dead, so no
entry is shifted down. -/
theorem c1_code_behavior :
    boardOf (showHighScores 6 e1).state = [10, 7, 6, 6, 6] ∧
      boardOf (showHighScores 6 e1).state ≠ [10, 7, 6, 5, 4] := by
  decide

/-- C2: evidence against the new-top-score claim.  On the leaderboard
10 7 5 4 2 (byte 5 holding 10), a session score of 15 flags the
notification but leaves the board 15 15 15 15 15, not the claimed
15 10 7 5 4. -/
theorem c2_code_behavior :
    (showHighScores 15 e1).newHigh = true ∧
      boardOf (showHighScores 15 e1).state = [15, 15, 15, 15, 15] ∧
      boardOf (showHighScores 15 e1).state ≠ [15, 10, 7, 5, 4] := by
  decide

/-- C3: the ordering invariant.  From any sorted starting board, every
sequence of showHighScores calls with arbitrary non-negative scores leaves
the five slots sorted non-ascending after each call. -/
theorem c3_ordering_invariant (l : List Nat) :
    ∀ (e : EEPROM), SortedBoard e → SortedBoard (recordSeq l e) := by
  induction l with
  | nil => intro e h; exact h
  | cons s t ih => intro e h; exact ih _ (sorted_step s e h)

/-- Witness for C3 at the board 10 7 5 4 2 and the score sequence 6, 15. -/
theorem c3_witness :
    SortedBoard e1 ∧ SortedBoard (recordSeq [6, 15] e1) :=
  ⟨by decide, c3_ordering_invariant [6, 15] e1 (by decide)⟩

/-- C4: non-qualifying scores.  For every storage state and every score at
most the value of slot 4, showHighScores leaves all five slots unchanged. -/
theorem c4_nonqualifying_unchanged (score : Nat) (e : EEPROM)
    (h : score ≤ e.read 4) :
    boardOf (showHighScores score e).state = boardOf e := by
  rw [showHighScores_state, boardOf_eq, boardOf_eq,
    showLoop_read_blocked score 0 4 e 4 (by omega) le_rfl h,
    showLoop_read_blocked score 1 4 e 4 (by omega) le_rfl h,
    showLoop_read_blocked score 2 4 e 4 (by omega) le_rfl h,
    showLoop_read_blocked score 3 4 e 4 (by omega) le_rfl h,
    showLoop_read_blocked score 4 4 e 4 le_rfl le_rfl h]

/-- Witness for C4 at the board 10 7 5 4 2 and score 2. -/
theorem c4_witness :
    2 ≤ e1.read 4 ∧ boardOf (showHighScores 2 e1).state = boardOf e1 :=
  ⟨by decide, c4_nonqualifying_unchanged 2 e1 (by decide)⟩

/-- C5 counterexample: with slot 0 holding 10 and storage byte 5 holding
20, a session score of 15 exceeds the top slot yet no new-high-score
notification is emitted, because the code compares against byte 5. -/
theorem c5_counterexample :
    e5.read 0 < 15 ∧ (showHighScores 15 e5).newHigh = false := by
  decide

/-- C5 (amended): the new-high-score notification is emitted exactly when
the session score exceeds the value held in storage byte 5 of the pre-call
state, hence before any leaderboard slot is updated. -/
theorem c5_newHigh_iff_byte5 (score : Nat) (e : EEPROM) :
    (showHighScores score e).newHigh = true ↔ e.read 5 < score := by
  simp [showHighScores]

/-- C6: the scan stops at the first slot, from rank 4 upward, whose stored
value is at least the session score, and that slot and every higher-ranked
slot keep their values. -/
theorem c6_scan_stop (score j a : Nat) (e : EEPROM) (hj : j ≤ 4)
    (hstop : score ≤ e.read j) (ha : a ≤ j) :
    (showHighScores score e).state.read a = e.read a := by
  rw [showHighScores_state]
  exact showLoop_read_blocked score a 4 e j ha hj hstop

/-- Witness for C6 at the board 10 7 5 4 2, score 6, stopping slot 1. -/
theorem c6_witness :
    (1 : Nat) ≤ 4 ∧ 6 ≤ e1.read 1 ∧ (0 : Nat) ≤ 1 ∧
      (showHighScores 6 e1).state.read 0 = e1.read 0 :=
  ⟨by decide, by decide, by decide,
    c6_scan_stop 6 1 0 e1 (by decide) (by decide) (by decide)⟩

/-- C7: the reset branch of debugMode leaves slots 0 to 4 holding exactly
10 7 5 4 2, whatever the prior storage state. -/
theorem c7_reset_defaults (e : EEPROM) :
    boardOf (resetScores e) = [10, 7, 5, 4, 2] := by
  rw [boardOf_eq, resetScores_eq]
  simp [EEPROM.read, EEPROM.write]

/-- C8: render purity.  Any number of display calls leaves the storage
state untouched and shows the same five slot values each time. -/
theorem c8_render_pure (e : EEPROM) (n : Nat) :
    (renderIter e n).2 = e ∧
      (renderIter e n).1 = List.replicate n (renderLeaderboard e).1 := by
  induction n with
  | zero => exact ⟨rfl, rfl⟩
  | succ m ih =>
      constructor
      · exact ih.1
      · show (renderLeaderboard e).1 :: (renderIter e m).1
          = List.replicate (m + 1) (renderLeaderboard e).1
        rw [List.replicate_succ, ih.2]

/-- C9 counterexample: scores are truncated to a byte when stored, so on
the board 10 7 5 4 2 a session score of 300 beats slot 0 yet slot 0 ends
holding 44, not 300. -/
theorem c9_counterexample :
    SortedBoard e1 ∧ e1.read 0 < 300 ∧
      (showHighScores 300 e1).state.read 0 ≠ 300 := by
  decide

/-- C9 (amended): on a sorted board, every slot whose old value is below
the session score ends holding the score reduced modulo 256 (the score
itself whenever it fits a byte), and every other slot is unchanged: the
result is an unchanged prefix followed by a suffix of duplicated score
entries, with no shifted-down values. -/
theorem c9_duplicate_suffix (score : Nat) (e : EEPROM) (hs : SortedBoard e) :
    boardOf (showHighScores score e).state =
      (List.range 5).map fun a => if e.read a < score then score % 256 else e.read a := by
  have hm := sortedBoard_mono e hs
  rw [showHighScores_state, boardOf_eq,
    showLoop4_slot score e 0 (by omega) (hm 0),
    showLoop4_slot score e 1 (by omega) (hm 1),
    showLoop4_slot score e 2 (by omega) (hm 2),
    showLoop4_slot score e 3 (by omega) (hm 3),
    showLoop4_slot score e 4 (by omega) (hm 4)]
  rfl

/-- Witness for C9 at the board 10 7 5 4 2 and score 6. -/
theorem c9_witness :
    SortedBoard e1 ∧
      boardOf (showHighScores 6 e1).state =
        (List.range 5).map fun a => if e1.read a < 6 then 6 % 256 else e1.read a :=
  ⟨by decide, c9_duplicate_suffix 6 e1 (by decide)⟩

/-- C10: storage byte 5 is never written: it is unchanged by
showHighScores, by the reset branch of debugMode, and by the display
step. -/
theorem c10_byte5_never_written (score : Nat) (e : EEPROM) :
    (showHighScores score e).state.read 5 = e.read 5 ∧
      (resetScores e).read 5 = e.read 5 ∧
      (renderLeaderboard e).2.read 5 = e.read 5 := by
  refine ⟨?_, ?_, rfl⟩
  · rw [showHighScores_state]
    exact showLoop_read_gt score 5 4 e (by omega)
  · rw [resetScores_eq]
    simp [EEPROM.read, EEPROM.write]
